import Mathlib

/-!
Verification of the multi-source M&A extraction pipeline
(`ma_extractor_optimized.py`, `valor_economico_optimized.py`,
`fusoes_aquisicoes_optimized.py`) against its natural-language
specification.

The Python code is shallowly embedded: a pandas `DataFrame` of news
records becomes a `List Record`; nullable cells become `Option String`;
the wall-clock timestamp read by `datetime.now()` is passed in as an
explicit parameter; network I/O is passed in as explicit oracles.
-/

namespace MA

/-! ### Date standardization (`standardize_date` inside
`clean_and_structure_data`, ma_extractor_optimized.py lines 272-309)

The helper first runs the Python regex
`(\d{1,2})[/\-\.](\d{1,2})[/\-\.](\d{2,4})` via `re.search`, then the
regex `(\d+) de (\w+) de (\d{4})` via `re.findall` (taking the first,
i.e. leftmost, match).  Both regexes are embedded as executable
leftmost-match scanners.  Because in each pattern every quantified
digit/word group is followed by a character that can never itself be a
digit/word character, the greedy maximal-munch scan below coincides
with Python's backtracking semantics; the character classes `\d` and
`\w` are embedded exactly for every code point below 0x100 (ASCII and
Latin-1, which covers Portuguese orthography), and theorems
quantifying over raw date strings are guarded accordingly. -/

def isSepChar (c : Char) : Bool :=
  c == '/' || c == '-' || c == '.'

/-- Python's `\w` (Unicode mode), exact on every code point below
0x100: ASCII alphanumerics and underscore, the Latin-1 letters
(0xC0-0xFF except the multiplication and division signs 0xD7/0xF7,
plus ª 0xAA, µ 0xB5, º 0xBA, ß, etc.) and the Latin-1 numeric
characters ¹ ² ³ ¼ ½ ¾.  Theorems that quantify over raw date strings
carry a hypothesis restricting them to such Latin-1 text (which covers
all Portuguese orthography), the domain on which this embedding of the
regex character classes is exact. -/
def isWordChar (c : Char) : Bool :=
  c.isAlphanum || c == '_' ||
    (decide (0xC0 ≤ c.toNat) && decide (c.toNat ≤ 0xFF) &&
      !(c.toNat == 0xD7) && !(c.toNat == 0xF7)) ||
    c.toNat == 0xAA || c.toNat == 0xB2 || c.toNat == 0xB3 ||
    c.toNat == 0xB5 || c.toNat == 0xB9 || c.toNat == 0xBA ||
    c.toNat == 0xBC || c.toNat == 0xBD || c.toNat == 0xBE

/-- The guard under which the embedded regex classes (`\d`, `\w`) and
`str.lower()` coincide exactly with Python's: every character of the
string is ASCII or Latin-1. -/
def latin1Str (s : String) : Prop :=
  ∀ c ∈ s.data, c.toNat < 0x100

instance (s : String) : Decidable (latin1Str s) :=
  List.decidableBAll _ s.data

/-- Greedy prefix of at most `n` decimal digits. -/
def takeDigitsUpTo : Nat → List Char → List Char × List Char
  | 0, cs => ([], cs)
  | _ + 1, [] => ([], [])
  | n + 1, c :: cs =>
    if c.isDigit then
      let (ds, rest) := takeDigitsUpTo n cs
      (c :: ds, rest)
    else ([], c :: cs)

/-- One anchored attempt of `(\d{1,2})[/\-\.](\d{1,2})[/\-\.](\d{2,4})`
at the head of the character list. -/
def matchNumericAt (cs : List Char) : Option (String × String × String) :=
  let (d, r1) := takeDigitsUpTo 2 cs
  if d.isEmpty then none
  else
    match r1 with
    | s1 :: r2 =>
      if isSepChar s1 then
        let (m, r3) := takeDigitsUpTo 2 r2
        if m.isEmpty then none
        else
          match r3 with
          | s2 :: r4 =>
            if isSepChar s2 then
              let (y, _) := takeDigitsUpTo 4 r4
              if y.length < 2 then none
              else some (d.asString, m.asString, y.asString)
            else none
          | [] => none
      else none
    | [] => none

/-- Embedding of `re.search` for the numeric date pattern: leftmost successful
anchored match. -/
def searchNumeric : List Char → Option (String × String × String)
  | [] => none
  | c :: cs =>
    match matchNumericAt (c :: cs) with
    | some r => some r
    | none => searchNumeric cs

/-- One anchored attempt of `(\d+) de (\w+) de (\d{4})` at the head of
the character list. -/
def matchLongAt (cs : List Char) : Option (String × String × String) :=
  let (d, r1) := cs.span Char.isDigit
  if d.isEmpty then none
  else
    match r1 with
    | ' ' :: 'd' :: 'e' :: ' ' :: r2 =>
      let (w, r3) := r2.span isWordChar
      if w.isEmpty then none
      else
        match r3 with
        | ' ' :: 'd' :: 'e' :: ' ' :: r4 =>
          let y := r4.take 4
          if y.length == 4 && y.all Char.isDigit then
            some (d.asString, w.asString, y.asString)
          else none
        | _ => none
    | _ => none

/-- Leftmost match of the long Portuguese date form (what
`re.findall(...)[0]` selects). -/
def searchLong : List Char → Option (String × String × String)
  | [] => none
  | c :: cs =>
    match matchLongAt (c :: cs) with
    | some r => some r
    | none => searchLong cs

/-- Python `str.zfill(2)`. -/
def zfill2 (s : String) : String :=
  if s.length ≥ 2 then s else String.mk (List.replicate (2 - s.length) '0') ++ s

/-- The fixed 12-entry `month_map` of the source. -/
def monthMap : String → Option String
  | "janeiro" => some "01"
  | "fevereiro" => some "02"
  | "março" => some "03"
  | "abril" => some "04"
  | "maio" => some "05"
  | "junho" => some "06"
  | "julho" => some "07"
  | "agosto" => some "08"
  | "setembro" => some "09"
  | "outubro" => some "10"
  | "novembro" => some "11"
  | "dezembro" => some "12"
  | _ => none

/-- Python `str.lower()` on one character, exact on every code point
below 0x100: the ASCII range A-Z and the Latin-1 range À-Þ
(0xC0-0xDE, excluding the multiplication sign 0xD7) shift down by 32;
everything else in Latin-1 is unchanged. -/
def lowerChar (c : Char) : Char :=
  if 65 ≤ c.toNat ∧ c.toNat ≤ 90 then Char.ofNat (c.toNat + 32)
  else if 0xC0 ≤ c.toNat ∧ c.toNat ≤ 0xDE ∧ c.toNat ≠ 0xD7 then
    Char.ofNat (c.toNat + 32)
  else c

/-- Python `str.lower()`. -/
def lowerPy (s : String) : String :=
  (s.data.map lowerChar).asString

/-- Embedding of `standardize_date` (ma_extractor_optimized.py lines 272-309).
A pandas null cell is `none`; `not date_str` is true for a null or
empty string. -/
def standardize_date (dateStr : Option String) : Option String :=
  match dateStr with
  | none => none
  | some s =>
    if s = "" ∨ s = "Data não encontrada" then none
    else
      match searchNumeric s.data with
      | some (d, m, y) =>
        let y2 := if y.length == 2 then "20" ++ y else y
        some (zfill2 d ++ "/" ++ zfill2 m ++ "/" ++ y2)
      | none =>
        match searchLong s.data with
        | some (d, w, y) =>
          some (zfill2 d ++ "/" ++ (monthMap (lowerPy w)).getD "01" ++ "/" ++ y)
        | none => some s

/-! ### Records and the normalizer pipeline -/

/-- One row of the extracted DataFrame.  `date_standardized` and
`extraction_date` are the columns added by `clean_and_structure_data`;
rows coming straight from a scraper have them `none`. -/
structure Record where
  url : String
  title : Option String := none
  date : Option String := none
  buyer : Option String := none
  acquired : Option String := none
  value : Option String := none
  multiple : Option String := none
  source : Option String := none
  date_standardized : Option String := none
  extraction_date : Option String := none
deriving DecidableEq, Repr

/-- Embedding of `drop_duplicates(subset=['url'])` with pandas' default
`keep='first'`: the first row with each url survives. -/
def dropDupGo (seen : List String) : List Record → List Record
  | [] => []
  | r :: rs =>
    if r.url ∈ seen then dropDupGo seen rs
    else r :: dropDupGo (r.url :: seen) rs

def drop_duplicates_by_url (l : List Record) : List Record :=
  dropDupGo [] l

/-- The `date_standardized` column assignment. -/
def standardizeRow (r : Record) : Record :=
  { r with date_standardized := standardize_date r.date }

/-- The `fillna("Não informado")` pass over the four optional columns. -/
def fillnaRow (r : Record) : Record :=
  { r with
    buyer := some (r.buyer.getD "Não informado")
    acquired := some (r.acquired.getD "Não informado")
    value := some (r.value.getD "Não informado")
    multiple := some (r.multiple.getD "Não informado") }

/-- The `extraction_date` column assignment (the `datetime.now()` read
is the explicit `now` argument). -/
def stampRow (now : String) (r : Record) : Record :=
  { r with extraction_date := some now }

/-- Python's string `<=`: lexicographic comparison of the code-point
sequences. -/
def strLEb : List Char → List Char → Bool
  | [], _ => true
  | _ :: _, [] => false
  | a :: as, b :: bs =>
    if a.toNat = b.toNat then strLEb as bs
    else decide (a.toNat < b.toNat)

theorem strLEb_refl : ∀ cs, strLEb cs cs = true
  | [] => rfl
  | _ :: cs => by rw [strLEb, if_pos rfl]; exact strLEb_refl cs

theorem strLEb_total : ∀ xs ys, strLEb xs ys = true ∨ strLEb ys xs = true
  | [], _ => Or.inl rfl
  | _ :: _, [] => Or.inr rfl
  | a :: as, b :: bs => by
    by_cases hab : a.toNat = b.toNat
    · rw [strLEb, if_pos hab, strLEb, if_pos hab.symm]
      exact strLEb_total as bs
    · rcases Nat.lt_or_ge a.toNat b.toNat with h | h
      · exact Or.inl (by rw [strLEb, if_neg hab]; exact decide_eq_true h)
      · have h' : b.toNat < a.toNat := lt_of_le_of_ne h (fun e => hab e.symm)
        exact Or.inr (by
          rw [strLEb, if_neg (fun e => hab e.symm)]
          exact decide_eq_true h')

theorem strLEb_trans :
    ∀ xs ys zs, strLEb xs ys = true → strLEb ys zs = true → strLEb xs zs = true
  | [], _, _, _, _ => rfl
  | _ :: _, [], _, h1, _ => by rw [strLEb] at h1; exact Bool.noConfusion h1
  | _ :: _, _ :: _, [], _, h2 => by rw [strLEb] at h2; exact Bool.noConfusion h2
  | a :: as, b :: bs, c :: cs, h1, h2 => by
    rw [strLEb] at h1 h2 ⊢
    by_cases hab : a.toNat = b.toNat <;> by_cases hbc : b.toNat = c.toNat
    · rw [if_pos hab] at h1
      rw [if_pos hbc] at h2
      rw [if_pos (hab.trans hbc)]
      exact strLEb_trans as bs cs h1 h2
    · rw [if_neg hbc] at h2
      rw [if_neg (hab ▸ hbc)]
      exact decide_eq_true (hab ▸ of_decide_eq_true h2)
    · rw [if_neg hab] at h1
      rw [if_neg (hbc ▸ hab)]
      exact decide_eq_true (hbc ▸ of_decide_eq_true h1)
    · rw [if_neg hab] at h1
      rw [if_neg hbc] at h2
      have hlt := Nat.lt_trans (of_decide_eq_true h1) (of_decide_eq_true h2)
      rw [if_neg (Nat.ne_of_lt hlt)]
      exact decide_eq_true hlt

/-- Boolean form of the key order used by
`sort_values(by='date_standardized', ascending=False)`: descending in
the lexicographic string order pandas applies to an object column, with
null keys sorted last (pandas' default `na_position='last'`). -/
def keyGEb : Option String → Option String → Bool
  | some x, some y => strLEb y.data x.data
  | some _, none => true
  | none, some _ => false
  | none, none => true

def dsGEb (a b : Record) : Bool :=
  keyGEb a.date_standardized b.date_standardized

def dsGE (a b : Record) : Prop := dsGEb a b = true

instance : DecidableRel dsGE := fun a b => inferInstanceAs (Decidable (_ = true))

theorem keyGEb_total : ∀ x y, keyGEb x y = true ∨ keyGEb y x = true
  | none, none => Or.inl rfl
  | none, some _ => Or.inr rfl
  | some _, none => Or.inl rfl
  | some x, some y => strLEb_total y.data x.data

theorem keyGEb_trans :
    ∀ x y z, keyGEb x y = true → keyGEb y z = true → keyGEb x z = true
  | some _, some _, some _, h1, h2 => strLEb_trans _ _ _ h2 h1
  | some _, some _, none, _, _ => rfl
  | some _, none, none, _, _ => rfl
  | some _, none, some _, _, h2 => Bool.noConfusion h2
  | none, some _, _, h1, _ => Bool.noConfusion h1
  | none, none, some _, _, h2 => Bool.noConfusion h2
  | none, none, none, _, _ => rfl

instance : IsTotal Record dsGE where
  total a b := keyGEb_total a.date_standardized b.date_standardized

instance : IsTrans Record dsGE where
  trans a b c hab hbc :=
    keyGEb_trans a.date_standardized b.date_standardized c.date_standardized hab hbc

/-- What `sort_values(by='date_standardized', ascending=False)` with
pandas' default `kind='quicksort'` guarantees, and nothing more: the
result is a permutation of the input, non-increasing in the key order
(nulls last).  The default quicksort is NOT stable, so the relative
order of records with equal keys is implementation-defined; the
pipeline is therefore parametrized by an arbitrary implementation
satisfying exactly this contract. -/
def SortImpl (srt : List Record → List Record) : Prop :=
  ∀ l : List Record, (srt l).Perm l ∧ (srt l).Pairwise dsGE

/-- One concrete implementation satisfying the sort contract, used to
instantiate witnesses. -/
theorem sortImpl_insertionSort : SortImpl (List.insertionSort dsGE) :=
  fun l => ⟨List.perm_insertionSort dsGE l, List.sorted_insertionSort dsGE l⟩

/-- Another implementation satisfying the contract; being fed the
reversed list, it puts tied keys in the opposite of their input order,
as an unstable quicksort may. -/
def revSort (l : List Record) : List Record :=
  List.insertionSort dsGE l.reverse

theorem sortImpl_revSort : SortImpl revSort :=
  fun l => ⟨(List.perm_insertionSort dsGE l.reverse).trans l.reverse_perm,
    List.sorted_insertionSort dsGE l.reverse⟩

/-- Embedding of `clean_and_structure_data` (ma_extractor_optimized.py lines
246-329): guard on an empty frame, deduplicate by url, standardize
dates, null-fill the four optional columns, sort descending by the
standardized date with the unspecified-tie-order sort `srt`, stamp the
extraction timestamp. -/
def clean_and_structure_data (srt : List Record → List Record)
    (now : String) (df : List Record) : List Record :=
  if df = [] then df
  else
    (srt (((drop_duplicates_by_url df).map standardizeRow).map
        fillnaRow)).map (stampRow now)

/-- The pipeline stages before the sort (dedup, date standardization,
null-fill). -/
def preSortList (df : List Record) : List Record :=
  if df = [] then df
  else ((drop_duplicates_by_url df).map standardizeRow).map fillnaRow

/-! ### Helper lemmas about the pipeline stages -/

theorem standardizeRow_url (r : Record) : (standardizeRow r).url = r.url := rfl

theorem fillnaRow_url (r : Record) : (fillnaRow r).url = r.url := rfl

theorem stampRow_url (now : String) (r : Record) : (stampRow now r).url = r.url := rfl

theorem stampRow_ds (now : String) (r : Record) :
    (stampRow now r).date_standardized = r.date_standardized := rfl

theorem keyGEb_refl : ∀ x, keyGEb x x = true
  | none => rfl
  | some x => strLEb_refl x.data

/-- Elements dropped by `dropDupGo` are exactly those whose url was
already seen; a url never seen keeps exactly its first occurrence. -/
theorem dropDupGo_filter_of_mem (u : String) :
    ∀ (seen : List String) (l : List Record), u ∈ seen →
      (dropDupGo seen l).filter (fun r => r.url == u) = []
  | _, [], _ => rfl
  | seen, r :: rs, hu => by
    by_cases hr : r.url ∈ seen
    · rw [dropDupGo, if_pos hr]
      exact dropDupGo_filter_of_mem u seen rs hu
    · rw [dropDupGo, if_neg hr]
      have hne : (r.url == u) = false := by
        simp only [beq_eq_false_iff_ne, ne_eq]
        intro h
        exact hr (h ▸ hu)
      rw [List.filter_cons_of_neg (by simp [hne])]
      exact dropDupGo_filter_of_mem u (r.url :: seen) rs (List.mem_cons_of_mem _ hu)

theorem dropDupGo_filter_of_not_mem (u : String) :
    ∀ (seen : List String) (l : List Record), u ∉ seen →
      (dropDupGo seen l).filter (fun r => r.url == u)
        = (l.find? (fun r => r.url == u)).toList
  | _, [], _ => rfl
  | seen, r :: rs, hu => by
    by_cases hr : r.url ∈ seen
    · have hne : (r.url == u) = false := by
        simp only [beq_eq_false_iff_ne, ne_eq]
        intro h
        exact hu (h ▸ hr)
      rw [dropDupGo, if_pos hr, List.find?_cons_of_neg _ (by simp [hne])]
      exact dropDupGo_filter_of_not_mem u seen rs hu
    · rw [dropDupGo, if_neg hr]
      by_cases he : r.url = u
      · rw [List.filter_cons_of_pos (by simp [he]),
          List.find?_cons_of_pos _ (by simp [he]),
          dropDupGo_filter_of_mem u (r.url :: seen) rs (by simp [he])]
        rfl
      · rw [List.filter_cons_of_neg (by simp [he]),
          List.find?_cons_of_neg _ (by simp [he])]
        exact dropDupGo_filter_of_not_mem u (r.url :: seen) rs
          (fun h => he (by cases List.mem_cons.mp h with
            | inl h => exact h.symm
            | inr h => exact absurd h hu))

theorem drop_duplicates_filter (u : String) (l : List Record) :
    (drop_duplicates_by_url l).filter (fun r => r.url == u)
      = (l.find? (fun r => r.url == u)).toList :=
  dropDupGo_filter_of_not_mem u [] l (List.not_mem_nil u)

/-- The urls surviving `dropDupGo` are distinct and disjoint from the
already-seen set. -/
theorem dropDupGo_nodup :
    ∀ (seen : List String) (l : List Record),
      ((dropDupGo seen l).map Record.url).Nodup ∧
        ∀ v ∈ (dropDupGo seen l).map Record.url, v ∉ seen
  | _, [] => ⟨List.nodup_nil, fun v hv => absurd hv (List.not_mem_nil v)⟩
  | seen, r :: rs => by
    by_cases hr : r.url ∈ seen
    · rw [dropDupGo, if_pos hr]
      exact dropDupGo_nodup seen rs
    · rw [dropDupGo, if_neg hr]
      obtain ⟨ih1, ih2⟩ := dropDupGo_nodup (r.url :: seen) rs
      refine ⟨List.nodup_cons.mpr ⟨fun hmem => ?_, ih1⟩, ?_⟩
      · exact ih2 r.url hmem (List.mem_cons_self _ _)
      · intro v hv
        rcases List.mem_cons.mp hv with h | h
        · exact h ▸ hr
        · exact fun hs => ih2 v h (List.mem_cons_of_mem _ hs)

theorem drop_duplicates_nodup (l : List Record) :
    ((drop_duplicates_by_url l).map Record.url).Nodup :=
  (dropDupGo_nodup [] l).1

/-- Dropping duplicates is the identity on a list of distinct urls. -/
theorem dropDupGo_eq_self :
    ∀ (seen : List String) (l : List Record),
      (∀ r ∈ l, r.url ∉ seen) → (l.map Record.url).Nodup → dropDupGo seen l = l
  | _, [], _, _ => rfl
  | seen, r :: rs, hdisj, hnd => by
    have hr : r.url ∉ seen := hdisj r (List.mem_cons_self _ _)
    rw [dropDupGo, if_neg hr]
    rw [List.map_cons] at hnd
    obtain ⟨hhead, htail⟩ := List.nodup_cons.mp hnd
    refine congrArg (r :: ·) (dropDupGo_eq_self (r.url :: seen) rs ?_ htail)
    intro x hx hmem
    rcases List.mem_cons.mp hmem with h | h
    · exact hhead (h ▸ List.mem_map_of_mem Record.url hx)
    · exact hdisj x (List.mem_cons_of_mem _ hx) h

/-- Master lemma: for every implementation of the sort contract,
filtering the normalized output by a url yields exactly the image of
the first input occurrence of that url (or nothing when the url is
absent). -/
theorem clean_filter_url (srt : List Record → List Record)
    (hsrt : SortImpl srt) (now u : String) (df : List Record) :
    (clean_and_structure_data srt now df).filter (fun r => r.url == u)
      = ((df.find? (fun r => r.url == u)).map
          (fun r => stampRow now (fillnaRow (standardizeRow r)))).toList := by
  by_cases hdf : df = []
  · subst hdf; rfl
  · rw [clean_and_structure_data, if_neg hdf]
    have hgen : ∀ l : List Record,
        (l.map (stampRow now)).filter (fun r => r.url == u)
          = (l.filter (fun r => r.url == u)).map (stampRow now) := fun l => by
      rw [List.filter_map]; exact rfl
    have hY : (((drop_duplicates_by_url df).map standardizeRow).map fillnaRow).filter
          (fun r => r.url == u)
        = (((drop_duplicates_by_url df).filter
            (fun r => r.url == u)).map standardizeRow).map fillnaRow := by
      rw [List.filter_map, List.filter_map]; rfl
    rw [drop_duplicates_filter u df] at hY
    have hperm :=
      ((hsrt (((drop_duplicates_by_url df).map standardizeRow).map
        fillnaRow)).1).filter (fun r => r.url == u)
    rw [hY] at hperm
    rcases hfind : df.find? (fun r => r.url == u) with _ | r0
    · rw [hfind] at hperm
      have hnil := hperm.eq_nil
      rw [hgen, hnil, hfind]
      rfl
    · rw [hfind] at hperm
      have hone : (srt (((drop_duplicates_by_url df).map standardizeRow).map
            fillnaRow)).filter (fun r => r.url == u)
          = [fillnaRow (standardizeRow r0)] := List.perm_singleton.mp hperm
      rw [hgen, hone, hfind]
      rfl

/-- C1: for every merged record list containing two or more records
with the same url and every implementation of the sort contract, the
normalized output contains exactly one record with that url, namely
the first occurrence in merge order, keeping the first occurrence's
source; later duplicates are dropped. -/
theorem clean_dedup_keeps_first_source (srt : List Record → List Record)
    (hsrt : SortImpl srt) (now u : String) (df : List Record)
    (r0 : Record)
    (hdup : 2 ≤ (df.filter (fun r => r.url == u)).length)
    (hfirst : df.find? (fun r => r.url == u) = some r0) :
    ((clean_and_structure_data srt now df).filter (fun r => r.url == u)).length = 1 ∧
      ∃ r ∈ clean_and_structure_data srt now df, r.url = u ∧ r.source = r0.source := by
  have h := clean_filter_url srt hsrt now u df
  rw [hfirst] at h
  refine ⟨by rw [h]; rfl, stampRow now (fillnaRow (standardizeRow r0)), ?_, ?_, rfl⟩
  · have hm : stampRow now (fillnaRow (standardizeRow r0)) ∈
        (clean_and_structure_data srt now df).filter (fun r => r.url == u) := by
      rw [h]; exact List.mem_singleton.mpr rfl
    exact List.mem_of_mem_filter hm
  · have h0 := List.find?_some (p := fun r : Record => r.url == u) hfirst
    exact eq_of_beq h0

/-- Witness for C1 at a concrete duplicated url coming from two
different sources, with a concrete legal sort implementation: the
first-encountered source wins. -/
theorem clean_dedup_keeps_first_source_witness :
    ((clean_and_structure_data (List.insertionSort dsGE) "2024-01-01"
        [{ url := "https://x/n1", source := some "Pipeline Valor" },
         { url := "https://x/n2", source := some "Valor Econômico" },
         { url := "https://x/n1", source := some "Valor Econômico" }]).filter
        (fun r => r.url == "https://x/n1")).length = 1 ∧
      ∃ r ∈ clean_and_structure_data (List.insertionSort dsGE) "2024-01-01"
        [{ url := "https://x/n1", source := some "Pipeline Valor" },
         { url := "https://x/n2", source := some "Valor Econômico" },
         { url := "https://x/n1", source := some "Valor Econômico" }],
        r.url = "https://x/n1" ∧ r.source = some "Pipeline Valor" :=
  clean_dedup_keeps_first_source (List.insertionSort dsGE)
    sortImpl_insertionSort "2024-01-01" "https://x/n1" _
    { url := "https://x/n1", source := some "Pipeline Valor" }
    (by decide) (by decide)

/-- C2 (amended): for every implementation of the sort contract, the
normalized output is non-increasing in the pandas sort key — the
lexicographic order of the standardized date STRING, nulls last — and
is a permutation of the deduplicated, standardized, filled, stamped
records.  No tie order is claimed: pandas' default quicksort is not
stable, so the relative order of records with equal keys is
implementation-defined. -/
theorem clean_sort_lex_desc_nulls_last (srt : List Record → List Record)
    (hsrt : SortImpl srt) (now : String) (df : List Record) :
    List.Pairwise dsGE (clean_and_structure_data srt now df) ∧
      (clean_and_structure_data srt now df).Perm
        ((preSortList df).map (stampRow now)) := by
  by_cases hdf : df = []
  · subst hdf
    exact ⟨List.Pairwise.nil, List.Perm.refl _⟩
  · rw [clean_and_structure_data, if_neg hdf, preSortList, if_neg hdf]
    constructor
    · exact ((hsrt _).2).map _ (fun a b hab => hab)
    · exact ((hsrt _).1).map (stampRow now)

/-- Witness for C2 with a concrete legal sort implementation and a
concrete batch containing a duplicate url, a null date and an
unrecognized date. -/
theorem clean_sort_lex_desc_nulls_last_witness :
    List.Pairwise dsGE (clean_and_structure_data (List.insertionSort dsGE)
        "2024-03-01"
        [{ url := "a", date := some "02/01/2024" },
         { url := "b", date := some "31/12/2023" },
         { url := "a", date := some "05/05/2024" },
         { url := "c", date := some "not a date" },
         { url := "d" }]) ∧
      (clean_and_structure_data (List.insertionSort dsGE) "2024-03-01"
        [{ url := "a", date := some "02/01/2024" },
         { url := "b", date := some "31/12/2023" },
         { url := "a", date := some "05/05/2024" },
         { url := "c", date := some "not a date" },
         { url := "d" }]).Perm
        ((preSortList
          [{ url := "a", date := some "02/01/2024" },
           { url := "b", date := some "31/12/2023" },
           { url := "a", date := some "05/05/2024" },
           { url := "c", date := some "not a date" },
           { url := "d" }]).map (stampRow "2024-03-01")) :=
  clean_sort_lex_desc_nulls_last (List.insertionSort dsGE)
    sortImpl_insertionSort "2024-03-01" _

/-- Split a character list on the slash character. -/
def splitSlash : List Char → List (List Char)
  | [] => [[]]
  | c :: cs =>
    if c == '/' then [] :: splitSlash cs
    else
      match splitSlash cs with
      | [] => [[c]]
      | h :: t => (c :: h) :: t

/-- Parse a nonempty all-digit character list as a natural number. -/
def parseNatDigits (cs : List Char) : Option Nat :=
  if cs ≠ [] ∧ cs.all Char.isDigit then
    some (cs.foldl (fun n c => n * 10 + (c.toNat - 48)) 0)
  else none

/-- Parse a standardized `DD/MM/YYYY` string into a calendar triple
(year, month, day); anything else — including the null key — is not a
calendar date. -/
def calKey (x : Option String) : Option (Nat × Nat × Nat) :=
  match x with
  | none => none
  | some s =>
    match splitSlash s.data with
    | [d, m, y] =>
      match parseNatDigits d, parseNatDigits m, parseNatDigits y with
      | some dn, some mn, some yn => some (yn, mn, dn)
      | _, _, _ => none
    | _ => none

/-- Lexicographic comparison of calendar triples (year, month, day). -/
def calLEb (a b : Nat × Nat × Nat) : Bool :=
  decide (a.1 < b.1) ||
    (a.1 == b.1 && (decide (a.2.1 < b.2.1) ||
      (a.2.1 == b.2.1 && decide (a.2.2 ≤ b.2.2))))

/-- The order C2 claims between two adjacent output records: calendar
dates non-increasing, null calendar dates strictly after all real
ones. -/
def calClaimPairOK (a b : Record) : Bool :=
  match calKey a.date_standardized, calKey b.date_standardized with
  | some x, some y => calLEb y x
  | some _, none => true
  | none, some _ => false
  | none, none => true

/-- Adjacent-pairs check of the order claimed by C2. -/
def calendarClaimOK : List Record → Bool
  | [] => true
  | [_] => true
  | a :: b :: rest => calClaimPairOK a b && calendarClaimOK (b :: rest)

/-- Counterexample to C2 as stated: 2 January 2024 sorts BEFORE
1 February 2024 because the `DD/MM/YYYY` strings are compared
lexicographically, so the output is increasing, not non-increasing, in
calendar order.  The two keys are distinct, so every implementation of
the sort contract produces this order; the exhibited implementation is
one of them. -/
theorem sort_calendar_claim_counterexample :
    SortImpl (List.insertionSort dsGE) ∧
      calendarClaimOK (clean_and_structure_data (List.insertionSort dsGE)
        "2024-03-01"
        [{ url := "a", date := some "02/01/2024" },
         { url := "b", date := some "01/02/2024" }]) = false :=
  ⟨sortImpl_insertionSort, by decide⟩

/-! ### Idempotence of the normalizer -/

theorem standardizeRow_eq_self (r : Record)
    (h : r.date_standardized = standardize_date r.date) : standardizeRow r = r := by
  rw [standardizeRow, ← h]

theorem fillnaRow_eq_self (r : Record)
    (h1 : r.buyer.isSome = true) (h2 : r.acquired.isSome = true)
    (h3 : r.value.isSome = true) (h4 : r.multiple.isSome = true) :
    fillnaRow r = r := by
  obtain ⟨v1, e1⟩ := Option.isSome_iff_exists.mp h1
  obtain ⟨v2, e2⟩ := Option.isSome_iff_exists.mp h2
  obtain ⟨v3, e3⟩ := Option.isSome_iff_exists.mp h3
  obtain ⟨v4, e4⟩ := Option.isSome_iff_exists.mp h4
  have hr : r = { r with
      buyer := some v1
      acquired := some v2
      value := some v3
      multiple := some v4 } := by
    rw [← e1, ← e2, ← e3, ← e4]
  rw [fillnaRow, e1, e2, e3, e4]
  simp only [Option.getD_some]
  exact hr.symm

theorem stampRow_eq_self (now : String) (r : Record)
    (h : r.extraction_date = some now) : stampRow now r = r := by
  rw [stampRow, ← h]

/-- The shape `clean_and_structure_data` leaves its output in: distinct
urls, recomputable standardized dates, filled optional columns, the
batch timestamp on every row, and sortedness in the pandas key order. -/
def CleanForm (now : String) (l : List Record) : Prop :=
  (l.map Record.url).Nodup ∧
    (∀ r ∈ l, r.date_standardized = standardize_date r.date ∧
      r.buyer.isSome = true ∧ r.acquired.isSome = true ∧
      r.value.isSome = true ∧ r.multiple.isSome = true ∧
      r.extraction_date = some now) ∧
    l.Pairwise dsGE

/-- On a list already in clean form, every pipeline stage before the
sort is the identity, so re-normalizing reduces to one more run of the
sort implementation. -/
theorem clean_eq_sort_of_cleanForm (srt : List Record → List Record)
    (hsrt : SortImpl srt) (now : String) (l : List Record)
    (h : CleanForm now l) : clean_and_structure_data srt now l = srt l := by
  obtain ⟨hnd, hrow, hsort⟩ := h
  by_cases hl : l = []
  · subst hl
    exact ((hsrt []).1.eq_nil).symm
  · rw [clean_and_structure_data, if_neg hl]
    rw [show drop_duplicates_by_url l = l from
      dropDupGo_eq_self [] l (fun r _ => List.not_mem_nil _) hnd]
    rw [List.map_congr_left
        (fun r hr => (standardizeRow_eq_self r (hrow r hr).1 : standardizeRow r = id r)),
      List.map_id']
    rw [List.map_congr_left (fun r hr =>
        (fillnaRow_eq_self r (hrow r hr).2.1 (hrow r hr).2.2.1 (hrow r hr).2.2.2.1
          (hrow r hr).2.2.2.2.1 : fillnaRow r = id r)),
      List.map_id']
    rw [List.map_congr_left (fun r hr =>
        (stampRow_eq_self now r
          (hrow r ((hsrt l).1.mem_iff.mp hr) |>.2.2.2.2.2) : stampRow now r = id r)),
      List.map_id']

/-- For every implementation of the sort contract, the normalizer
produces a list in clean form. -/
theorem cleanForm_clean (srt : List Record → List Record)
    (hsrt : SortImpl srt) (now : String) (df : List Record) :
    CleanForm now (clean_and_structure_data srt now df) := by
  by_cases hdf : df = []
  · subst hdf
    exact ⟨List.nodup_nil, fun r hr => absurd hr (List.not_mem_nil r),
      List.Pairwise.nil⟩
  · rw [clean_and_structure_data, if_neg hdf]
    refine ⟨?_, ?_, ?_⟩
    · have hmap1 : ((((drop_duplicates_by_url df).map standardizeRow).map
            fillnaRow).map Record.url) = (drop_duplicates_by_url df).map Record.url := by
        rw [List.map_map, List.map_map]
        exact List.map_congr_left (fun r _ => rfl)
      have hnd1 : ((srt (((drop_duplicates_by_url df).map standardizeRow).map
            fillnaRow)).map Record.url).Nodup :=
        ((hsrt _).1.map Record.url).nodup_iff.mpr
          (by rw [hmap1]; exact drop_duplicates_nodup df)
      rw [List.map_map]
      rw [List.map_congr_left (fun (r : Record) _ =>
        (rfl : (Record.url ∘ stampRow now) r = Record.url r))]
      exact hnd1
    · intro r hr
      obtain ⟨r1, hr1, rfl⟩ := List.mem_map.mp hr
      have hr1' := (hsrt _).1.mem_iff.mp hr1
      obtain ⟨r2, hr2, rfl⟩ := List.mem_map.mp hr1'
      obtain ⟨r0, hr0, rfl⟩ := List.mem_map.mp hr2
      exact ⟨rfl, rfl, rfl, rfl, rfl, rfl⟩
    · exact ((hsrt _).2).map _ (fun a b hab => hab)

theorem strLEb_antisymm :
    ∀ xs ys, strLEb xs ys = true → strLEb ys xs = true → xs = ys
  | [], [], _, _ => rfl
  | [], _ :: _, _, h2 => by rw [strLEb] at h2; exact Bool.noConfusion h2
  | _ :: _, [], h1, _ => by rw [strLEb] at h1; exact Bool.noConfusion h1
  | a :: as, b :: bs, h1, h2 => by
    rw [strLEb] at h1 h2
    by_cases hab : a.toNat = b.toNat
    · rw [if_pos hab] at h1
      rw [if_pos hab.symm] at h2
      have heq : a = b := Char.ext (UInt32.ext hab)
      rw [heq]
      exact congrArg (b :: ·) (strLEb_antisymm as bs h1 h2)
    · rw [if_neg hab] at h1
      rw [if_neg (fun e => hab e.symm)] at h2
      exact absurd (of_decide_eq_true h1) (Nat.lt_asymm (of_decide_eq_true h2))

theorem keyGEb_antisymm :
    ∀ x y, keyGEb x y = true → keyGEb y x = true → x = y
  | none, none, _, _ => rfl
  | none, some _, h1, _ => Bool.noConfusion h1
  | some _, none, _, h2 => Bool.noConfusion h2
  | some x, some y, h1, h2 => by
    have hd : y.data = x.data := strLEb_antisymm y.data x.data h1 h2
    exact congrArg some (String.ext hd).symm

/-- Two sorted permutations of each other whose keys are pairwise
distinct coincide: without tied keys the sorted order is unique. -/
theorem sorted_perm_eq_of_nodup_keys :
    ∀ l₁ l₂ : List Record, l₁.Perm l₂ → l₁.Pairwise dsGE → l₂.Pairwise dsGE →
      (l₁.map Record.date_standardized).Nodup → l₁ = l₂
  | [], l₂, hp, _, _, _ => (hp.symm.eq_nil).symm
  | a :: t₁, l₂, hp, hs₁, hs₂, hnd => by
    rcases l₂ with _ | ⟨b, t₂⟩
    · exact absurd hp.eq_nil (List.cons_ne_nil a t₁)
    · have hbmem : b ∈ a :: t₁ := hp.mem_iff.mpr (List.mem_cons_self b t₂)
      have hamem : a ∈ b :: t₂ := hp.mem_iff.mp (List.mem_cons_self a t₁)
      by_cases heq : a = b
      · subst heq
        rw [List.map_cons] at hnd
        exact congrArg (a :: ·) (sorted_perm_eq_of_nodup_keys t₁ t₂
          hp.cons_inv hs₁.of_cons hs₂.of_cons (List.nodup_cons.mp hnd).2)
      · have hb_t₁ : b ∈ t₁ := by
          rcases List.mem_cons.mp hbmem with h | h
          · exact absurd h.symm heq
          · exact h
        have ha_t₂ : a ∈ t₂ := by
          rcases List.mem_cons.mp hamem with h | h
          · exact absurd h heq
          · exact h
        have h1 : dsGE a b := List.rel_of_pairwise_cons hs₁ hb_t₁
        have h2 : dsGE b a := List.rel_of_pairwise_cons hs₂ ha_t₂
        have hkey : a.date_standardized = b.date_standardized :=
          keyGEb_antisymm _ _ h1 h2
        rw [List.map_cons] at hnd
        exact absurd (hkey ▸ List.mem_map_of_mem Record.date_standardized hb_t₁)
          (List.nodup_cons.mp hnd).1

/-- C3 counterexample: the claim "normalize(normalize(batch)) ==
normalize(batch) for every batch" is false for the program, whose
`sort_values` (default unstable quicksort) only promises a sorted
permutation: `revSort` satisfies that contract, yet on a two-record
batch with tied (null) standardized dates re-normalizing swaps the two
records. -/
theorem clean_unstable_sort_not_idempotent :
    SortImpl revSort ∧
      clean_and_structure_data revSort "2024-01-01"
          (clean_and_structure_data revSort "2024-01-01"
            [{ url := "a" }, { url := "b" }])
        ≠ clean_and_structure_data revSort "2024-01-01"
            [{ url := "a" }, { url := "b" }] :=
  ⟨sortImpl_revSort, by decide⟩

/-- C3 (amended): re-normalizing the normalizer's own output (with the
batch timestamp fixed) returns the same records — a permutation of the
output, still sorted — for every implementation of the sort contract;
it returns the output exactly unchanged whenever the standardized-date
keys are pairwise distinct.  With tied keys the unstable sort may
reorder them, so exact idempotence is not guaranteed. -/
theorem clean_idempotent_up_to_ties (srt : List Record → List Record)
    (hsrt : SortImpl srt) (now : String) (df : List Record) :
    (clean_and_structure_data srt now
        (clean_and_structure_data srt now df)).Perm
        (clean_and_structure_data srt now df) ∧
      (clean_and_structure_data srt now
        (clean_and_structure_data srt now df)).Pairwise dsGE ∧
      (((clean_and_structure_data srt now df).map
          Record.date_standardized).Nodup →
        clean_and_structure_data srt now
            (clean_and_structure_data srt now df)
          = clean_and_structure_data srt now df) := by
  have hform := cleanForm_clean srt hsrt now df
  have h2 := clean_eq_sort_of_cleanForm srt hsrt now _ hform
  rw [h2]
  refine ⟨(hsrt _).1, (hsrt _).2, ?_⟩
  intro hnd
  exact sorted_perm_eq_of_nodup_keys _ _ (hsrt _).1 (hsrt _).2 hform.2.2
    (by
      have := ((hsrt (clean_and_structure_data srt now df)).1.map
        Record.date_standardized).nodup_iff.mpr hnd
      exact this)

/-- Witness for C3: with a concrete legal sort implementation and a
concrete batch whose normalized output has pairwise distinct
standardized dates, re-normalizing is exactly the identity. -/
theorem clean_idempotent_up_to_ties_witness :
    (clean_and_structure_data (List.insertionSort dsGE) "2024-01-01"
        (clean_and_structure_data (List.insertionSort dsGE) "2024-01-01"
          [{ url := "a", date := some "02/01/2024" },
           { url := "b", date := some "15/03/2023" }])).Perm
        (clean_and_structure_data (List.insertionSort dsGE) "2024-01-01"
          [{ url := "a", date := some "02/01/2024" },
           { url := "b", date := some "15/03/2023" }]) ∧
      clean_and_structure_data (List.insertionSort dsGE) "2024-01-01"
          (clean_and_structure_data (List.insertionSort dsGE) "2024-01-01"
            [{ url := "a", date := some "02/01/2024" },
             { url := "b", date := some "15/03/2023" }])
        = clean_and_structure_data (List.insertionSort dsGE) "2024-01-01"
            [{ url := "a", date := some "02/01/2024" },
             { url := "b", date := some "15/03/2023" }] :=
  ⟨(clean_idempotent_up_to_ties (List.insertionSort dsGE)
      sortImpl_insertionSort "2024-01-01" _).1,
   (clean_idempotent_up_to_ties (List.insertionSort dsGE)
      sortImpl_insertionSort "2024-01-01"
      [{ url := "a", date := some "02/01/2024" },
       { url := "b", date := some "15/03/2023" }]).2.2 (by decide)⟩

/-! ### Claims about `standardize_date` itself -/

/-- C4 counterexample: the claim says an unrecognized raw date string
is mapped to a null normalized date, but `standardize_date` returns the
string unchanged (`return date_str`), so "not a date" does not become
null. -/
theorem standardize_date_unrecognized_counterexample :
    ¬ standardize_date (some "not a date") = none := by decide

/-- C4 (amended): `standardize_date` rewrites numeric `D/M/Y` dates
(promoting a 2-digit year to `20YY`) and the long Portuguese form, and
returns any string matching neither pattern UNCHANGED (null only for a
null/empty cell or the "Data não encontrada" sentinel); in particular
"02/01/2024" and "2 de janeiro de 2024" both normalize to the date
2 January 2024 and "not a date" stays "not a date".  The pass-through
clause is stated for Latin-1 text, the domain on which the embedded
regex character classes coincide exactly with Python's. -/
theorem standardize_date_behavior :
    standardize_date (some "02/01/2024") = some "02/01/2024" ∧
      standardize_date (some "2 de janeiro de 2024") = some "02/01/2024" ∧
      standardize_date (some "02/01/24") = some "02/01/2024" ∧
      ∀ s : String, latin1Str s →
        searchNumeric s.data = none → searchLong s.data = none →
        s ≠ "" → s ≠ "Data não encontrada" → standardize_date (some s) = some s := by
  refine ⟨by decide, by decide, by decide, ?_⟩
  intro s hlat hn hl h1 h2
  simp only [standardize_date, hn, hl]
  rw [if_neg (fun hor => hor.elim h1 h2)]

/-- Witness for C4: the pass-through branch applied at the concrete
unrecognized input of the claim's scenario. -/
theorem standardize_date_behavior_witness :
    standardize_date (some "not a date") = some "not a date" :=
  standardize_date_behavior.2.2.2 "not a date" (by decide) (by decide)
    (by decide) (by decide) (by decide)

/-- C10: a long-form date whose month word misses the 12-entry month
table is silently given month "01" (January) by
`month_map.get(month_name.lower(), '01')`.  Stated for Latin-1 text,
the domain on which the embedded regex character classes coincide
exactly with Python's. -/
theorem long_form_unknown_month_defaults_january (s d w y : String)
    (hlat : latin1Str s)
    (hn : searchNumeric s.data = none)
    (hl : searchLong s.data = some (d, w, y))
    (hm : monthMap (lowerPy w) = none)
    (h1 : s ≠ "") (h2 : s ≠ "Data não encontrada") :
    standardize_date (some s) = some (zfill2 d ++ "/" ++ "01" ++ "/" ++ y) := by
  simp only [standardize_date, hn, hl]
  rw [if_neg (fun hor => hor.elim h1 h2), hm]
  rfl

/-- Witness for C10: "5 de foo de 2024" normalizes to 05/01/2024, and
in a string holding an earlier accented long-form date the leftmost
match wins exactly as in Python — "9 de xã de 1999 e 5 de foo de 2024"
normalizes to 09/01/1999. -/
theorem long_form_unknown_month_defaults_january_witness :
    standardize_date (some "5 de foo de 2024") = some "05/01/2024" ∧
      standardize_date (some "9 de xã de 1999 e 5 de foo de 2024")
        = some "09/01/1999" :=
  ⟨(long_form_unknown_month_defaults_january "5 de foo de 2024" "5" "foo" "2024"
      (by decide) (by decide) (by decide) (by decide) (by decide)
      (by decide)).trans (by decide),
   (long_form_unknown_month_defaults_january
      "9 de xã de 1999 e 5 de foo de 2024" "9" "xã" "1999"
      (by decide) (by decide) (by decide) (by decide) (by decide)
      (by decide)).trans (by decide)⟩

/-! ### The orchestrator (`run_all_sequential` / `run_all_parallel`,
ma_extractor_optimized.py lines 153-244)

Each `run_<source>` wrapper calls one scraper inside `try/except`,
tags the resulting rows with the source name when non-empty, and
returns an empty frame when the scraper raised.  A scraper run is
embedded as its outcome: either a row list or a raised exception. -/

def setSource (s : String) (r : Record) : Record :=
  { r with source := some s }

/-- Embedding of `run_pipeline_valor`: tag with "Pipeline Valor", empty frame on an
exception. -/
def run_pipeline_valor (outcome : Except String (List Record)) : List Record :=
  match outcome with
  | .ok rs => rs.map (setSource "Pipeline Valor")
  | .error _ => []

/-- Embedding of `run_valor_economico`: empty frame when the credentials are not
configured, otherwise tag with "Valor Econômico", empty frame on an
exception. -/
def run_valor_economico (hasCreds : Bool)
    (outcome : Except String (List Record)) : List Record :=
  if !hasCreds then []
  else
    match outcome with
    | .ok rs => rs.map (setSource "Valor Econômico")
    | .error _ => []

/-- Embedding of `run_fusoes_aquisicoes`: tag with "Fusões e Aquisições", empty
frame on an exception. -/
def run_fusoes_aquisicoes (outcome : Except String (List Record)) : List Record :=
  match outcome with
  | .ok rs => rs.map (setSource "Fusões e Aquisições")
  | .error _ => []

/-- Embedding of `run_all_sequential`: run the three scrapers in order, keep the
non-empty frames, concatenate (an empty frame results when nothing was
produced). -/
def run_all_sequential (hasCreds : Bool)
    (o1 o2 o3 : Except String (List Record)) : List Record :=
  (([run_pipeline_valor o1, run_valor_economico hasCreds o2,
      run_fusoes_aquisicoes o3].filter (fun d => !d.isEmpty)).flatten)

/-- Embedding of `run_all_parallel`: the three scraper futures complete in some
order (`concurrent.futures.as_completed`), given here as the list
`order` of adapter indices; non-empty results are appended in
completion order and concatenated. -/
def run_all_parallel (order : List (Fin 3)) (hasCreds : Bool)
    (o1 o2 o3 : Except String (List Record)) : List Record :=
  ((order.map fun i =>
      match i with
      | 0 => run_pipeline_valor o1
      | 1 => run_valor_economico hasCreds o2
      | 2 => run_fusoes_aquisicoes o3).filter (fun d => !d.isEmpty)).flatten

theorem flatten_filter_ne_nil (l : List (List Record)) :
    (l.filter (fun d => !d.isEmpty)).flatten = l.flatten := by
  induction l with
  | nil => rfl
  | cons x xs ih =>
    rcases x with _ | ⟨a, b⟩
    · simpa [List.filter, List.isEmpty] using ih
    · simpa [List.filter, List.isEmpty] using congrArg (a :: b ++ ·) ih

theorem flatten_perm_of_perm {l₁ l₂ : List (List Record)} (h : l₁.Perm l₂) :
    l₁.flatten.Perm l₂.flatten := by
  induction h with
  | nil => exact List.Perm.refl _
  | cons x _ ih => simpa using ih.append_left x
  | swap x y l =>
    simp only [List.flatten_cons]
    rw [← List.append_assoc, ← List.append_assoc]
    exact (List.perm_append_comm.append_right _)
  | trans _ _ ih1 ih2 => exact ih1.trans ih2

/-- C5: an adapter that raises is caught by its `run_<source>` wrapper
and contributes an empty frame; the records of the other adapters still
make up the combined batch, in both sequential and parallel mode (the
latter up to the nondeterministic completion order of the futures). -/
theorem orchestrator_isolates_failing_adapter (e : String) (hc : Bool)
    (o1 o2 o3 : Except String (List Record)) (order : List (Fin 3))
    (hord : order.Perm [0, 1, 2]) :
    run_all_sequential hc (Except.error e) o2 o3
        = run_valor_economico hc o2 ++ run_fusoes_aquisicoes o3 ∧
      run_all_sequential hc o1 (Except.error e) o3
        = run_pipeline_valor o1 ++ run_fusoes_aquisicoes o3 ∧
      run_all_sequential hc o1 o2 (Except.error e)
        = run_pipeline_valor o1 ++ run_valor_economico hc o2 ∧
      (run_all_parallel order hc (Except.error e) o2 o3).Perm
        (run_valor_economico hc o2 ++ run_fusoes_aquisicoes o3) := by
  have hve : run_valor_economico hc (Except.error e) = [] := by
    cases hc <;> rfl
  refine ⟨?_, ?_, ?_, ?_⟩
  · rw [run_all_sequential, flatten_filter_ne_nil]
    simp [run_pipeline_valor]
  · rw [run_all_sequential, flatten_filter_ne_nil, hve]
    simp
  · rw [run_all_sequential, flatten_filter_ne_nil]
    simp [run_fusoes_aquisicoes]
  · rw [run_all_parallel, flatten_filter_ne_nil]
    have hp := flatten_perm_of_perm (hord.map (fun i : Fin 3 =>
      match i with
      | 0 => run_pipeline_valor (Except.error e)
      | 1 => run_valor_economico hc o2
      | 2 => run_fusoes_aquisicoes o3))
    simpa [run_pipeline_valor] using hp

/-- Witness for C5 at concrete adapters: the first adapter raises on
its call, the futures complete out of order, and both other adapters'
records are still delivered. -/
theorem orchestrator_isolates_failing_adapter_witness :
    run_all_sequential true (Except.error "boom")
        (Except.ok [{ url := "u2" }]) (Except.ok [{ url := "u3" }])
      = run_valor_economico true (Except.ok [{ url := "u2" }])
        ++ run_fusoes_aquisicoes (Except.ok [{ url := "u3" }]) ∧
    (run_all_parallel [2, 0, 1] true (Except.error "boom")
        (Except.ok [{ url := "u2" }]) (Except.ok [{ url := "u3" }])).Perm
      (run_valor_economico true (Except.ok [{ url := "u2" }])
        ++ run_fusoes_aquisicoes (Except.ok [{ url := "u3" }])) :=
  ⟨(orchestrator_isolates_failing_adapter "boom" true (Except.ok [])
      (Except.ok [{ url := "u2" }]) (Except.ok [{ url := "u3" }])
      [2, 0, 1] (by decide)).1,
   (orchestrator_isolates_failing_adapter "boom" true (Except.ok [])
      (Except.ok [{ url := "u2" }]) (Except.ok [{ url := "u3" }])
      [2, 0, 1] (by decide)).2.2.2⟩

/-! ### The per-request retry loop (`_make_request`,
valor_economico_optimized.py lines 177-229 and
fusoes_aquisicoes_optimized.py lines 85-134; both bodies are
identical)

The loop runs `max_retries` attempts.  Every attempt starts with a
random `uniform(1.0, 3.0)` pacing sleep (the `pre` oracle).  A 403
response and any other non-200 response both sleep
`backoff_factor ** attempt * 2` and retry; a requests
exception sleeps the same amount but only when another attempt
remains.  Only a 200 response is returned; when the loop exhausts its
attempts the function returns `None`.  The per-attempt user-agent
rotation has no observable effect in this model. -/

inductive ReqOutcome where
  | status (code : Nat)
  | exn
deriving DecidableEq, Repr

structure ReqTrace where
  result : Option Nat
  attempts : Nat
  preWaits : List ℚ
  backoffWaits : List ℚ

def make_request_go (oracle : Nat → ReqOutcome) (pre : Nat → ℚ) (bf : ℚ)
    (maxRetries : Nat) : Nat → Nat → ReqTrace
  | 0, _ => { result := none, attempts := 0, preWaits := [], backoffWaits := [] }
  | fuel + 1, attempt =>
    match oracle attempt with
    | .status code =>
      if code = 200 then
        { result := some 200, attempts := 1,
          preWaits := [pre attempt], backoffWaits := [] }
      else
        let t := make_request_go oracle pre bf maxRetries fuel (attempt + 1)
        { result := t.result, attempts := t.attempts + 1,
          preWaits := pre attempt :: t.preWaits,
          backoffWaits := (bf ^ attempt * 2) :: t.backoffWaits }
    | .exn =>
      if attempt < maxRetries - 1 then
        let t := make_request_go oracle pre bf maxRetries fuel (attempt + 1)
        { result := t.result, attempts := t.attempts + 1,
          preWaits := pre attempt :: t.preWaits,
          backoffWaits := (bf ^ attempt * 2) :: t.backoffWaits }
      else
        let t := make_request_go oracle pre bf maxRetries fuel (attempt + 1)
        { result := t.result, attempts := t.attempts + 1,
          preWaits := pre attempt :: t.preWaits,
          backoffWaits := t.backoffWaits }

/-- Embedding of `_make_request` for one url: `oracle k` is what attempt `k`'s HTTP
call produces, `pre k` the random pacing draw before attempt `k`. -/
def make_request (oracle : Nat → ReqOutcome) (pre : Nat → ℚ)
    (maxRetries : Nat) (bf : ℚ) : ReqTrace :=
  make_request_go oracle pre bf maxRetries maxRetries 0

/-- C6 counterexample: with `backoff_factor = 2` and every response a
500, the waits before the second and third attempts are `2 * 2^0 = 2`
and `2 * 2^1 = 4` seconds — not the `[1, 2]` the claim derives from
`baseDelay * backoffMultiplier^k` with `baseDelay = 1`.  The base of
the backoff is hardcoded to 2 in the source. -/
theorem make_request_backoff_counterexample :
    (make_request (fun _ => ReqOutcome.status 500) (fun _ => 0) 3 2).backoffWaits.take 2
      ≠ [1, 2] := by
  have h : (make_request (fun _ => ReqOutcome.status 500)
        (fun _ => 0) 3 2).backoffWaits.take 2
      = [(2 : ℚ) ^ 0 * 2, 2 ^ 1 * 2] := rfl
  rw [h]
  intro hx
  rw [List.cons.injEq] at hx
  have : ((2 : ℚ) ^ 0 * 2) ≠ 1 := by norm_num
  exact this hx.1

/-- C6 (amended): the wait before retry attempt `k` (0-indexed) is
`2 * backoff_factor^k` seconds (the base 2 is hardcoded; there is no
`baseDelay` knob), an unconditional uniform(1,3) pacing delay also
precedes every attempt, and after `maxRetries = 3` failed attempts the
request resolves to `None` for that one url. -/
theorem make_request_backoff_formula (bf : ℚ) (pre : Nat → ℚ)
    (oracle : Nat → ReqOutcome)
    (h : ∀ k, ∃ c, oracle k = ReqOutcome.status c ∧ c ≠ 200) :
    (make_request oracle pre 3 bf).result = none ∧
      (make_request oracle pre 3 bf).backoffWaits
        = [bf ^ 0 * 2, bf ^ 1 * 2, bf ^ 2 * 2] ∧
      (make_request oracle pre 3 bf).preWaits = [pre 0, pre 1, pre 2] ∧
      (make_request oracle pre 3 bf).attempts = 3 := by
  obtain ⟨c0, h0, hc0⟩ := h 0
  obtain ⟨c1, h1, hc1⟩ := h 1
  obtain ⟨c2, h2, hc2⟩ := h 2
  refine ⟨?_, ?_, ?_, ?_⟩ <;>
    simp [make_request, make_request_go, h0, h1, h2, hc0, hc1, hc2]

/-- Witness for C6 at an all-500 oracle with `backoff_factor = 2`. -/
theorem make_request_backoff_formula_witness :
    (make_request (fun _ => ReqOutcome.status 500) (fun _ => 1) 3 2).result = none ∧
      (make_request (fun _ => ReqOutcome.status 500) (fun _ => 1) 3 2).backoffWaits
        = [(2 : ℚ) ^ 0 * 2, 2 ^ 1 * 2, 2 ^ 2 * 2] ∧
      (make_request (fun _ => ReqOutcome.status 500) (fun _ => 1) 3 2).preWaits
        = [1, 1, 1] ∧
      (make_request (fun _ => ReqOutcome.status 500) (fun _ => 1) 3 2).attempts = 3 :=
  make_request_backoff_formula 2 (fun _ => 1) (fun _ => ReqOutcome.status 500)
    (fun _ => ⟨500, rfl, by decide⟩)

/-- C7 counterexample: a 404 on the first attempt is NOT treated as
permanent — the loop retries and returns the 200 obtained on the second
attempt, instead of failing immediately after one attempt as the claim
states. -/
theorem make_request_retry_404_counterexample :
    (make_request (fun k => if k = 0 then ReqOutcome.status 404
        else ReqOutcome.status 200) (fun _ => 0) 3 (3 / 2)).result = some 200 ∧
      (make_request (fun k => if k = 0 then ReqOutcome.status 404
        else ReqOutcome.status 200) (fun _ => 0) 3 (3 / 2)).attempts = 2 :=
  ⟨rfl, rfl⟩

/-- C7 (amended): the loop retries on exceptions
(timeout/connection) and on EVERY non-200 HTTP status — 403, 429, 5xx
and also any other 4xx such as 404 — and only a 200 response is
returned, immediately and without retry. -/
theorem make_request_retries_all_non_200 (bf : ℚ) (pre : Nat → ℚ) (c : Nat)
    (hc : c ≠ 200) (oracle : Nat → ReqOutcome)
    (h0 : oracle 0 = ReqOutcome.status c) (h1 : oracle 1 = ReqOutcome.status 200) :
    ((make_request oracle pre 3 bf).result = some 200 ∧
      (make_request oracle pre 3 bf).attempts = 2) ∧
      (∀ oracle2 : Nat → ReqOutcome, oracle2 0 = ReqOutcome.exn →
        oracle2 1 = ReqOutcome.status 200 →
        (make_request oracle2 pre 3 bf).result = some 200 ∧
          (make_request oracle2 pre 3 bf).attempts = 2) ∧
      ∀ oracle3 : Nat → ReqOutcome, oracle3 0 = ReqOutcome.status 200 →
        (make_request oracle3 pre 3 bf).result = some 200 ∧
          (make_request oracle3 pre 3 bf).attempts = 1 := by
  refine ⟨?_, ?_, ?_⟩
  · constructor <;> simp [make_request, make_request_go, h0, h1, hc]
  · intro o2 g0 g1
    constructor <;> simp [make_request, make_request_go, g0, g1]
  · intro o3 g0
    constructor <;> simp [make_request, make_request_go, g0]

/-- Witness for C7: 404 then 200 is retried and succeeds; an exception
then 200 likewise; an immediate 200 uses one attempt. -/
theorem make_request_retries_all_non_200_witness :
    ((make_request (fun k => if k = 0 then ReqOutcome.status 404
          else ReqOutcome.status 200) (fun _ => 1) 3 (3 / 2)).result = some 200 ∧
      (make_request (fun k => if k = 0 then ReqOutcome.status 404
          else ReqOutcome.status 200) (fun _ => 1) 3 (3 / 2)).attempts = 2) ∧
      (∀ oracle2 : Nat → ReqOutcome, oracle2 0 = ReqOutcome.exn →
        oracle2 1 = ReqOutcome.status 200 →
        (make_request oracle2 (fun _ => 1) 3 (3 / 2)).result = some 200 ∧
          (make_request oracle2 (fun _ => 1) 3 (3 / 2)).attempts = 2) ∧
      ∀ oracle3 : Nat → ReqOutcome, oracle3 0 = ReqOutcome.status 200 →
        (make_request oracle3 (fun _ => 1) 3 (3 / 2)).result = some 200 ∧
          (make_request oracle3 (fun _ => 1) 3 (3 / 2)).attempts = 1 :=
  make_request_retries_all_non_200 (3 / 2) (fun _ => 1) 404 (by decide)
    (fun k => if k = 0 then ReqOutcome.status 404 else ReqOutcome.status 200)
    rfl rfl

/-! ### The pipeline-level retry loop (`run_extraction`,
ma_extractor_optimized.py lines 370-429)

`outcomes k` is what the full multi-source cycle (parallel or
sequential) produces on attempt `k`: a merged frame, or a raised
exception.  The embedding returns the delivered normalized batch (the
`save_to_excel` payload, `none` when nothing was saved because the
frame was empty) together with the sequence of sleeps performed.  An
empty frame with budget left sleeps a fixed 10 seconds; an exception
with budget left sleeps `30 * (attempt + 1)` seconds. -/

def run_extraction_go (srt : List Record → List Record) (now : String)
    (outcomes : Nat → Except String (List Record)) (maxRetries : Nat) :
    Nat → Nat → Option (List Record) × List ℚ
  | 0, _ => (none, [])
  | fuel + 1, attempt =>
    match outcomes attempt with
    | .ok df =>
      if df = [] ∧ attempt < maxRetries - 1 then
        let t := run_extraction_go srt now outcomes maxRetries fuel (attempt + 1)
        (t.1, (10 : ℚ) :: t.2)
      else
        let c := clean_and_structure_data srt now df
        (if c = [] then none else some c, [])
    | .error _ =>
      if attempt < maxRetries - 1 then
        let t := run_extraction_go srt now outcomes maxRetries fuel (attempt + 1)
        (t.1, ((30 : ℚ) * (attempt + 1)) :: t.2)
      else
        run_extraction_go srt now outcomes maxRetries fuel (attempt + 1)

def run_extraction (srt : List Record → List Record) (now : String)
    (outcomes : Nat → Except String (List Record)) (maxRetries : Nat) :
    Option (List Record) × List ℚ :=
  run_extraction_go srt now outcomes maxRetries maxRetries 0

theorem clean_ne_nil (srt : List Record → List Record) (hsrt : SortImpl srt)
    (now : String) (r : Record) (rs : List Record) :
    clean_and_structure_data srt now (r :: rs) ≠ [] := by
  rw [clean_and_structure_data, if_neg (List.cons_ne_nil r rs)]
  intro hc
  have hlen := congrArg List.length hc
  rw [List.length_map, (hsrt _).1.length_eq, List.length_nil] at hlen
  simp only [List.length_map] at hlen
  rw [drop_duplicates_by_url, dropDupGo,
    if_neg (List.not_mem_nil r.url)] at hlen
  simp at hlen

/-- C8 counterexample: the delays slept after empty runs are the fixed
sequence `[10, 10]` — constant, not exponentially increasing. -/
theorem run_extraction_delay_counterexample :
    (run_extraction (List.insertionSort dsGE) "2024-01-01"
        (fun k => if k < 2 then Except.ok []
        else Except.ok [{ url := "u" }]) 3).2 = [10, 10] ∧
      ¬ List.Chain' (fun a b : ℚ => a < b)
        (run_extraction (List.insertionSort dsGE) "2024-01-01"
          (fun k => if k < 2 then Except.ok []
          else Except.ok [{ url := "u" }]) 3).2 := by
  have h : (run_extraction (List.insertionSort dsGE) "2024-01-01"
        (fun k => if k < 2 then Except.ok []
        else Except.ok [{ url := "u" }]) 3).2 = [(10 : ℚ), 10] := rfl
  refine ⟨h, ?_⟩
  rw [h]
  simp [List.chain'_cons]

/-- C8 (amended): with a retry budget of `maxRetries = 3` total runs,
every empty merged batch with budget remaining causes a FIXED
10-second sleep (not an exponentially increasing delay) and a full
re-run; two empty runs followed by a non-empty batch deliver that
batch normalized; and when every run is empty the orchestrator
delivers nothing. -/
theorem run_extraction_retry_behavior (srt : List Record → List Record)
    (hsrt : SortImpl srt) (now : String)
    (outcomes : Nat → Except String (List Record)) (b : List Record)
    (h0 : outcomes 0 = Except.ok []) (h1 : outcomes 1 = Except.ok [])
    (h2 : outcomes 2 = Except.ok b) (hb : b ≠ []) :
    run_extraction srt now outcomes 3
        = (some (clean_and_structure_data srt now b), [10, 10]) ∧
      ∀ outcomes2 : Nat → Except String (List Record),
        (∀ k, outcomes2 k = Except.ok []) →
        run_extraction srt now outcomes2 3 = (none, [10, 10]) := by
  constructor
  · rcases b with _ | ⟨r, rs⟩
    · exact absurd rfl hb
    · simp only [run_extraction, run_extraction_go, h0, h1, h2]
      simp [clean_ne_nil srt hsrt now r rs]
  · intro o2 ho2
    simp only [run_extraction, run_extraction_go, ho2]
    simp [clean_and_structure_data]

/-- Witness for C8: two empty runs, then a third run producing 5
records with distinct urls; the delivered batch holds 5 records. -/
theorem run_extraction_retry_behavior_witness :
    run_extraction (List.insertionSort dsGE) "2024-01-01"
        (fun k => if k < 2 then Except.ok []
        else Except.ok [{ url := "u1" }, { url := "u2" }, { url := "u3" },
          { url := "u4" }, { url := "u5" }]) 3
      = (some (clean_and_structure_data (List.insertionSort dsGE) "2024-01-01"
          [{ url := "u1" }, { url := "u2" }, { url := "u3" },
            { url := "u4" }, { url := "u5" }]), [10, 10]) ∧
      (clean_and_structure_data (List.insertionSort dsGE) "2024-01-01"
        [{ url := "u1" }, { url := "u2" }, { url := "u3" },
          { url := "u4" }, { url := "u5" }]).length = 5 :=
  ⟨(run_extraction_retry_behavior (List.insertionSort dsGE)
      sortImpl_insertionSort "2024-01-01" _ _ rfl rfl rfl
      (by decide)).1,
   by decide⟩

/-! ### The Selenium-to-requests fallback (`ValorEconomicoScraper`,
valor_economico_optimized.py lines 49-79, 231-244, 404-415, 591-602)

`__init__` attempts `_init_selenium` exactly once; on failure
`self.driver` is set to `None` and never reassigned —
`_init_selenium` has no other caller.  `login`, `search_news` and
`extract_news_data` all dispatch on `self.driver`: with no driver they
go straight to the requests-based implementation. -/

inductive Backend where
  | selenium
  | requests
deriving DecidableEq, Repr

inductive VEvent where
  | initSeleniumAttempt
  | usedSelenium
  | usedRequests
deriving DecidableEq, Repr

structure VEScraper where
  driver : Bool
  useRequestsFallback : Bool
deriving DecidableEq, Repr

/-- Embedding of `__init__`: one attempt to start Selenium; on failure the driver
stays `None`. -/
def initScraper (seleniumInitOk : Bool) (useFallback : Bool) :
    VEScraper × List VEvent :=
  ({ driver := seleniumInitOk, useRequestsFallback := useFallback },
    [VEvent.initSeleniumAttempt])

inductive VEOp where
  | search
  | extract
  | login
deriving DecidableEq, Repr

/-- One adapter operation (`search_news`, `extract_news_data` or
`login`; all three dispatch on `self.driver` the same way).  `raises`
says whether the Selenium path would raise at runtime, in which case
the requests fallback is used when enabled.  No operation ever writes
`self.driver`. -/
def stepOp (st : VEScraper) (o : VEOp) (raises : Bool) :
    VEScraper × List VEvent :=
  if st.driver then
    if raises then
      if st.useRequestsFallback then
        (st, [VEvent.usedSelenium, VEvent.usedRequests])
      else (st, [VEvent.usedSelenium])
    else (st, [VEvent.usedSelenium])
  else (st, [VEvent.usedRequests])

def runOps (st : VEScraper) : List (VEOp × Bool) → VEScraper × List VEvent
  | [] => (st, [])
  | p :: rest =>
    let s1 := stepOp st p.1 p.2
    let s2 := runOps s1.1 rest
    (s2.1, s1.2 ++ s2.2)

theorem runOps_no_driver (ops : List (VEOp × Bool)) :
    ∀ st : VEScraper, st.driver = false →
      (runOps st ops).1 = st ∧
        ∀ e ∈ (runOps st ops).2, e = VEvent.usedRequests := by
  induction ops with
  | nil => exact fun st _ => ⟨rfl, by intro e he; exact absurd he (List.not_mem_nil e)⟩
  | cons p rest ih =>
    intro st h
    have hstep : stepOp st p.1 p.2 = (st, [VEvent.usedRequests]) := by
      rw [stepOp, if_neg (by rw [h]; exact Bool.false_ne_true)]
    obtain ⟨ih1, ih2⟩ := ih st h
    rw [runOps, hstep]
    refine ⟨ih1, ?_⟩
    intro e he
    rcases List.mem_append.mp he with hh | hh
    · simpa using hh
    · exact ih2 e hh

/-- C9: when Selenium fails to initialize, the adapter state never
changes again, every subsequent search/extract/login operation uses the
requests backend, and Selenium initialization is attempted exactly once
per adapter lifetime (only by `__init__`). -/
theorem fallback_once_requests_backend (useFallback : Bool)
    (ops : List (VEOp × Bool)) :
    (runOps (initScraper false useFallback).1 ops).1
        = (initScraper false useFallback).1 ∧
      (∀ e ∈ (runOps (initScraper false useFallback).1 ops).2,
        e = VEvent.usedRequests) ∧
      ((initScraper false useFallback).2
          ++ (runOps (initScraper false useFallback).1 ops).2).count
        VEvent.initSeleniumAttempt = 1 := by
  obtain ⟨h1, h2⟩ := runOps_no_driver ops (initScraper false useFallback).1 rfl
  refine ⟨h1, h2, ?_⟩
  rw [List.count_append]
  have hz : ((runOps (initScraper false useFallback).1 ops).2).count
      VEvent.initSeleniumAttempt = 0 := by
    rw [List.count_eq_zero]
    intro hmem
    exact VEvent.noConfusion (h2 _ hmem)
  rw [hz]
  rfl

end MA
